import Mathlib

/-!
Verification of the EMG producer/collector pipeline.

Collector side: `src/server.js` (Express/WebSocket collector).
Producer side: `src/unnamed/part_000` (ESP32 firmware: calibration,
conditioning, frame buffering, transmission).

The embedding is shallow: JavaScript numbers that hold counters or
sequence values are modelled as `Nat`/`Int` (all relevant quantities are
integers in the source), the float `emaValue` accumulator is modelled as
an exact rational (`ℚ`), and the external stateful EMG filter is an
opaque parameter, as the specification treats it as an external
collaborator.
-/

set_option maxRecDepth 100000

namespace EMG

/-! ## Collector model (src/server.js) -/

/-- `MAX_STORED_FRAMES` from server.js line 27. -/
def MAX_STORED_FRAMES : Nat := 1000

/-- One inbound frame message as used by the `/api/emg` handler
(server.js lines 62-64): `deviceId`, `frameSequence`, `samplesInFrame`.
The sample payload itself is irrelevant to the collector logic under
study and is not carried. -/
structure FrameMsg where
  deviceId : String
  frameSequence : Int
  samplesInFrame : Nat
deriving DecidableEq

/-- Per-device stats record (server.js lines 72-79). -/
structure DeviceStats where
  framesReceived : Nat
  samplesReceived : Nat
  lastFrameSequence : Int
  droppedFrames : Int
deriving DecidableEq

/-- The record created lazily for a device on its first frame
(server.js lines 73-78): counters zero, `lastFrameSequence` the `-1`
sentinel. -/
def DeviceStats.fresh : DeviceStats :=
  { framesReceived := 0, samplesReceived := 0, lastFrameSequence := -1, droppedFrames := 0 }

/-- Aggregate stats object (server.js lines 17-24); `lastReceiveTime`
is an opaque timestamp with no logic attached and is omitted, and the
global `lastFrameSequence` field is never read or written by the
handlers under study. `devices` is the string-keyed map, modelled as an
association list in insertion order (JavaScript objects preserve string
key insertion order). -/
structure ServerStats where
  framesReceived : Nat
  samplesReceived : Nat
  droppedFrames : Int
  devices : List (String × DeviceStats)
deriving DecidableEq

/-- Initial aggregate stats (server.js lines 17-24), as also rebuilt by
`/api/reset` (lines 276-283). -/
def statsInit : ServerStats :=
  { framesReceived := 0, samplesReceived := 0, droppedFrames := 0, devices := [] }

/-- Collector mutable state: aggregate stats plus the bounded history
store `recentFrames` (server.js line 28). -/
structure ServerState where
  stats : ServerStats
  recentFrames : List FrameMsg
deriving DecidableEq

def serverInit : ServerState := { stats := statsInit, recentFrames := [] }

/-- Key lookup in the `stats.devices` object. -/
def lookupD : List (String × DeviceStats) → String → Option DeviceStats
  | [], _ => none
  | p :: rest, k => if p.1 = k then some p.2 else lookupD rest k

/-- Key update in the `stats.devices` object: overwrite an existing
entry in place, otherwise append a new entry (JavaScript property
creation appends in insertion order). -/
def upsert : List (String × DeviceStats) → String → DeviceStats → List (String × DeviceStats)
  | [], k, v => [(k, v)]
  | p :: rest, k, v => if p.1 = k then (k, v) :: rest else p :: upsert rest k v

/-- The device record the handler works with: the stored one, or the
freshly created one (server.js lines 72-81). -/
def devStatsOf (s : ServerStats) (d : String) : DeviceStats :=
  (lookupD s.devices d).getD DeviceStats.fresh

/-- Gap detection (server.js lines 86-94): amount added to the dropped
counters for a frame with sequence `seq` arriving when the stored
`lastFrameSequence` is `last`. Zero when the sentinel is set or when
`seq <= last + 1`. -/
def gap (last seq : Int) : Int :=
  if last ≠ -1 ∧ last + 1 < seq then seq - (last + 1) else 0

/-- The per-device mutations of one `/api/emg` call
(server.js lines 82-95). -/
def devIngest (ds : DeviceStats) (seq : Int) (cnt : Nat) : DeviceStats :=
  { framesReceived := ds.framesReceived + 1
    samplesReceived := ds.samplesReceived + cnt
    droppedFrames := ds.droppedFrames + gap ds.lastFrameSequence seq
    lastFrameSequence := seq }

/-- Bounded store append (server.js lines 104-109): push, then shift
the oldest entry off the front when the length exceeds
`MAX_STORED_FRAMES`. Polymorphic: the array holds arbitrary entries. -/
def pushCapped {α : Type} (l : List α) (f : α) : List α :=
  let l2 := l ++ [f]
  if MAX_STORED_FRAMES < l2.length then l2.tail else l2

/-- State transition of one successful `/api/emg` ingestion
(server.js lines 62-109): bump global counters, create/update the
device record, run gap detection on both counters, store the frame. -/
def ingest (st : ServerState) (f : FrameMsg) : ServerState :=
  let ds := devStatsOf st.stats f.deviceId
  { stats :=
      { framesReceived := st.stats.framesReceived + 1
        samplesReceived := st.stats.samplesReceived + f.samplesInFrame
        droppedFrames := st.stats.droppedFrames + gap ds.lastFrameSequence f.frameSequence
        devices := upsert st.stats.devices f.deviceId
          (devIngest ds f.frameSequence f.samplesInFrame) }
    recentFrames := pushCapped st.recentFrames f }

def ingestList (st : ServerState) (fs : List FrameMsg) : ServerState := fs.foldl ingest st

/-- `/api/reset` (server.js lines 275-296): stats rebuilt from scratch,
history cleared only when `clearFrames=true`. -/
def resetStats (st : ServerState) (clearFrames : Bool) : ServerState :=
  { stats := statsInit
    recentFrames := if clearFrames then [] else st.recentFrames }

/-- A collector mutation: frame ingestion or a reset call. -/
inductive ServerOp
  | frame (f : FrameMsg)
  | reset (clearFrames : Bool)

def applyOp (st : ServerState) : ServerOp → ServerState
  | .frame f => ingest st f
  | .reset c => resetStats st c

def runOps (ops : List ServerOp) : ServerState := ops.foldl applyOp serverInit

/-- Specification-side sum of positive gaps for one device: fold of
`gap` along the sequence numbers, threading the previous sequence as
the new reference point (claim C1 wording). -/
def dropSpec : Int → List Int → Int
  | _, [] => 0
  | last, s :: rest => gap last s + dropSpec s rest

/-! ### GET /api/frames (server.js lines 143-163) -/

/-- JavaScript `Array.prototype.slice` with one index argument `b`:
from `max(len + b, 0)` when `b < 0`, else from `min(b, len)`. -/
def jsSlice {α : Type} (l : List α) (b : Int) : List α :=
  if b < 0 then l.drop (l.length - (-b).toNat) else l.drop b.toNat

/-- The optional `deviceId` filter of the list-recent query
(server.js lines 150-152). -/
def deviceFilter (store : List FrameMsg) (deviceQ : Option String) : List FrameMsg :=
  match deviceQ with
  | some d => store.filter (fun f => decide (f.deviceId = d))
  | none => store

/-- Result list of `GET /api/frames` (server.js lines 143-163).
`limitQ` is the result of `parseInt(req.query.limit)`: `none` models
`NaN` (absent or unparsable query). The JavaScript expression
`parseInt(...) || recentFrames.length` falls back to the store length
exactly when the parse result is `NaN` or `0`. -/
def getFramesResult (store : List FrameMsg) (limitQ : Option Int)
    (deviceQ : Option String) : List FrameMsg :=
  let limit : Int :=
    match limitQ with
    | some n => if n = 0 then (store.length : Int) else n
    | none => (store.length : Int)
  jsSlice (deviceFilter store deviceQ) (-limit)

/-! ### POST /api/emg request handling and error path
(server.js lines 59-140)

The whole handler body sits in a `try`. Given that `body-parser` only
ever yields an object or an array for `req.body`, the only expression
in the body that can throw is the very first field access
`frameData.deviceId` (line 62), which throws exactly when `req.body`
is not an object. That access precedes every counter update, the
store push and the broadcast, so the `catch` path (lines 132-139)
responds with `success: false` and leaves the state untouched.
`broadcast` cannot throw: its only fallible operation, `client.send`,
is wrapped in its own `try` (lines 303-307). -/

/-- A request body for `/api/emg`: either an object, whose fields may
individually be absent (mirroring the defaulting `frameData.deviceId`
line 62 and `frameData.samplesInFrame || 0` line 64), or a non-object
value whose first field access throws. -/
inductive ReqBody
  | obj (deviceId : Option String) (frameSequence : Int) (samplesInFrame : Option Nat)
  | malformed

inductive EmgResponse
  | ok (frameSequence : Int) (samplesReceived : Nat)
  | err (message : String) (error : String)
deriving DecidableEq

def EmgResponse.success : EmgResponse → Bool
  | .ok _ _ => true
  | .err _ _ => false

/-- Outcome of one `/api/emg` request: new collector state, the JSON
response, and the frame fanned out to subscribers (if any). -/
structure EmgResult where
  state : ServerState
  response : EmgResponse
  broadcastPayload : Option FrameMsg

/-- The `/api/emg` handler (server.js lines 59-140). On a malformed
body the field access throws before any mutation, so the catch path
returns the state unchanged with an error response and broadcasts
nothing; on an object body the handler never rejects. -/
def handleEmg (st : ServerState) (body : ReqBody) : EmgResult :=
  match body with
  | .malformed =>
      { state := st
        response := .err ("Error processing data") ("TypeError")
        broadcastPayload := none }
  | .obj dev seq cnt =>
      let f : FrameMsg :=
        { deviceId := dev.getD ("unknown")
          frameSequence := seq
          samplesInFrame := cnt.getD 0 }
      { state := ingest st f
        response := .ok seq (cnt.getD 0)
        broadcastPayload := some f }

/-! ### WebSocket fan-out (server.js lines 31-56 and 299-310) -/

/-- One connected WebSocket client as the broadcast loop sees it:
an identity, its `readyState`, and whether `send` would throw. -/
structure WsClient where
  id : Nat
  readyStateOpen : Bool
  sendFails : Bool
deriving DecidableEq

/-- One iteration of the `clients.forEach` loop in `broadcast`
(server.js lines 301-309): skip non-open clients; `send` is attempted
inside a `try`, and a throw is caught and merely logged, so a failed
delivery contributes nothing and removes nothing. `acc` is the list of
client ids the message was actually delivered to. -/
def broadcastStep (acc : List Nat) (c : WsClient) : List Nat :=
  if c.readyStateOpen then
    if c.sendFails then acc
    else acc ++ [c.id]
  else acc

/-- `broadcast(message)` (server.js lines 299-310): the subscriber
list itself is never modified by the function; the second component is
the ids that received the message. -/
def broadcastRun (clients : List WsClient) : List WsClient × List Nat :=
  (clients, clients.foldl broadcastStep [])

/-- The `close` event handler (server.js lines 48-51):
`clients = clients.filter(client => client !== ws)`. -/
def onCloseHandler (clients : List WsClient) (ws : WsClient) : List WsClient :=
  clients.filter (fun c => decide (c ≠ ws))

/-! ## Producer model (src/unnamed/part_000) -/

/-- `SAMPLES_PER_FRAME` (part_000 line 20). -/
def SAMPLES_PER_FRAME : Nat := 10

/-- `CALIBRATION_SAMPLES` (part_000 line 50). -/
def CALIBRATION_SAMPLES : Nat := 100

/-- `ARRAY_SIZE`, the moving-average ring size (part_000 line 56). -/
def ARRAY_SIZE : Nat := 15

/-- `alpha` (part_000 line 65), the float literal `0.35` as an exact
rational. -/
def alpha : ℚ := 35 / 100

/-- Per-channel conditioning state (part_000 lines 56-64): the ring
`dataArrayN`, its cursor `arrayIndexN`, the fill flag `arrayFullN`,
and the float accumulator `emaValueN`, modelled exactly over `ℚ`.
Ring entries are the clamped (nonnegative) filtered values. -/
structure ChanState where
  ring : List Nat
  idx : Nat
  full : Bool
  ema : ℚ
deriving DecidableEq

/-- Ring zero-initialisation and zero accumulator
(part_000 lines 57-64 and 101-104). -/
def chanInit : ChanState :=
  { ring := List.replicate ARRAY_SIZE 0, idx := 0, full := false, ema := 0 }

/-- One channel update of `collectSample` for one clamped filtered
value `v` (part_000 lines 193-217 for channel 1, lines 201-227 for
channel 2, identical code): write `v` at the cursor, advance and wrap
the cursor setting the fill flag, and, only once the ring has filled,
recompute the integer ring average (`sum1 / ARRAY_SIZE`, integer
division) and the exponential average. The returned stable value is
the truncation of `emaValue` to `int`; the accumulator is nonnegative
throughout (ring entries are clamped to `≥ 0` and `0 < alpha < 1`), so
truncation towards zero agrees with the floor used here. Before the
ring fills the stable value stays `0` and the accumulator is not
touched. -/
def chanStep (s : ChanState) (v : Nat) : ChanState × Int :=
  let ring := s.ring.set s.idx v
  let idx2 := s.idx + 1
  let idx := if ARRAY_SIZE ≤ idx2 then 0 else idx2
  let full := if ARRAY_SIZE ≤ idx2 then true else s.full
  if full then
    let average : Nat := ring.sum / ARRAY_SIZE
    let ema : ℚ := alpha * (average : ℚ) + (1 - alpha) * s.ema
    ({ ring := ring, idx := idx, full := full, ema := ema }, ⌊ema⌋)
  else
    ({ ring := ring, idx := idx, full := full, ema := s.ema }, 0)

/-- Run one channel over a list of clamped filtered values, returning
the final channel state and the stable (smoothed) value reported for
each input. -/
def chanProc (s : ChanState) : List Nat → ChanState × List Int
  | [] => (s, [])
  | v :: vs =>
      let r := chanStep s v
      let rest := chanProc r.1 vs
      (rest.1, r.2 :: rest.2)

def chanStateAfter (xs : List Nat) : ChanState := (chanProc chanInit xs).1

def chanOutputs (xs : List Nat) : List Int := (chanProc chanInit xs).2

/-- Integer average of the window of the last `ARRAY_SIZE` inputs up to
and including index `i` (the ring contents once it has filled), with
the integer division the source performs (`sum1 / ARRAY_SIZE`). -/
def winAvg (xs : List Nat) (i : Nat) : Nat :=
  (((xs.take (i + 1)).drop (i + 1 - ARRAY_SIZE)).sum) / ARRAY_SIZE

/-- Specification-side exponential accumulator after the sample at
index `i` has been processed: `0` while the ring has not yet filled
(`i + 1 < ARRAY_SIZE`), then `alpha * avg + (1 - alpha) * prev` on
every subsequent sample, starting from `0`, where `avg` is the integer
ring average. -/
def specEma (xs : List Nat) : Nat → ℚ
  | 0 => 0
  | i + 1 =>
      if i + 2 < ARRAY_SIZE then 0
      else alpha * (winAvg xs (i + 1) : ℚ) + (1 - alpha) * specEma xs i

/-- The exact (rational) window mean, following the literal wording
`mean(ring)` of the claim, for comparison against the integer average
the code computes. -/
def winAvgReal (xs : List Nat) (i : Nat) : ℚ :=
  ((((xs.take (i + 1)).drop (i + 1 - ARRAY_SIZE)).sum : ℚ)) / (ARRAY_SIZE : ℚ)

/-- Modelled from the claim wording: the exponential accumulator with
the exact rational window mean in place of the integer average. -/
def specEmaReal (xs : List Nat) : Nat → ℚ
  | 0 => 0
  | i + 1 =>
      if i + 2 < ARRAY_SIZE then 0
      else alpha * winAvgReal xs (i + 1) + (1 - alpha) * specEmaReal xs i

/-- One conditioned sample as stored in the frame buffer
(part_000 lines 24-30): timestamp, normalised raw and smoothed value
per channel. -/
structure EMGSample where
  t : Nat
  raw1 : Nat
  ema1 : Int
  raw2 : Nat
  ema2 : Int
deriving DecidableEq

/-- A frame as serialized by `sendFrameToServer`
(part_000 lines 262-282): sequence number and the buffered samples
(`samplesInFrame` is their count). -/
structure Frame where
  frameSequence : Nat
  samples : List EMGSample
deriving DecidableEq

/-- Producer state (part_000 lines 32-74). `now` models the monotone
microsecond clock read by `micros()`, advancing once per scheduler
tick, so successive ticks carry distinct timestamps. `emitted` records
the frames actually serialized and handed to the network, and
`discarded` is a ghost trace of the samples `collectSample` computed
but did not store because the buffer was full (part_000 line 230):
both are history variables for specification purposes only and are
read by no transition. The filter states `fstate1`/`fstate2` belong to
the opaque external filter. -/
structure ProdState (σ : Type) where
  baselineCalibrated : Bool
  calibrationCount : Nat
  calibrationSum1 : Nat
  calibrationSum2 : Nat
  baseline1 : Nat
  baseline2 : Nat
  fstate1 : σ
  fstate2 : σ
  chan1 : ChanState
  chan2 : ChanState
  buffer : List EMGSample
  frameSequence : Nat
  wifiConnected : Bool
  now : Nat
  emitted : List Frame
  discarded : List EMGSample

/-- Producer state after `setup()` (part_000 lines 81-111): counters
and sums zero, baselines zero, calibration pending, empty buffer, ring
state zero-initialised; `w0` is the connection outcome of the initial
`setupWiFi()` and `f0` the initial state of each external filter. -/
def prodInit {σ : Type} (f0 : σ) (w0 : Bool) : ProdState σ :=
  { baselineCalibrated := false
    calibrationCount := 0
    calibrationSum1 := 0
    calibrationSum2 := 0
    baseline1 := 0
    baseline2 := 0
    fstate1 := f0
    fstate2 := f0
    chan1 := chanInit
    chan2 := chanInit
    buffer := []
    frameSequence := 0
    wifiConnected := w0
    now := 0
    emitted := []
    discarded := [] }

/-- External inputs consumed by one scheduler tick: the two ADC
readings, the `WiFi.status()` probe `sendFrameToServer` would make,
and the outcome of the `setupWiFi()` reconnection it attempts when
that probe fails. -/
structure TickInput where
  raw1 : Nat
  raw2 : Nat
  statusUp : Bool
  reconnectOk : Bool

/-- The conditioned sample `collectSample()` computes for the current
tick (part_000 lines 178-235): timestamp, baseline-subtracted raws
clamped at zero (`Nat` subtraction is exactly `max(0, raw - baseline)`),
and the per-channel stable values out of the ring/EMA stage fed with
the clamped output of the opaque filter. -/
def condSample {σ : Type} (flt : σ → Int → Int × σ)
    (s : ProdState σ) (raw1 raw2 : Nat) : EMGSample :=
  { t := s.now
    raw1 := raw1 - s.baseline1
    ema1 := (chanStep s.chan1 (flt s.fstate1 ((raw1 - s.baseline1 : Nat) : Int)).1.toNat).2
    raw2 := raw2 - s.baseline2
    ema2 := (chanStep s.chan2 (flt s.fstate2 ((raw2 - s.baseline2 : Nat) : Int)).1.toNat).2 }

/-- `collectSample()` (part_000 lines 176-240): read raws, condition
them (see `condSample`), advance the filter and channel states, and
store the conditioned sample in the frame buffer only if
`bufferIndex < SAMPLES_PER_FRAME`; a sample arriving on a full buffer
is recorded in the ghost `discarded` trace instead. -/
def collectSample {σ : Type} (flt : σ → Int → Int × σ)
    (s : ProdState σ) (raw1 raw2 : Nat) : ProdState σ :=
  let n1 : Nat := raw1 - s.baseline1
  let n2 : Nat := raw2 - s.baseline2
  let r1 := flt s.fstate1 (n1 : Int)
  let r2 := flt s.fstate2 (n2 : Int)
  let c1 := chanStep s.chan1 r1.1.toNat
  let c2 := chanStep s.chan2 r2.1.toNat
  let smp : EMGSample := condSample flt s raw1 raw2
  let s2 := { s with fstate1 := r1.2, fstate2 := r2.2, chan1 := c1.1, chan2 := c2.1 }
  if s2.buffer.length < SAMPLES_PER_FRAME then
    { s2 with buffer := s2.buffer ++ [smp] }
  else
    { s2 with discarded := s2.discarded ++ [smp] }

/-- The send condition evaluated on every `loop()` pass
(part_000 lines 154-158): when calibrated, `wifiConnected` is set and
the buffer is full, call `sendFrameToServer()` and then clear the
buffer unconditionally. Inside the send (lines 244-251), a failed
`WiFi.status()` probe aborts before serialization — no frame emitted,
no sequence increment — and reattempts connection via `setupWiFi()`
(outcome `inp.reconnectOk`); otherwise the frame is serialized from
the buffer (lines 262-282) and the sequence incremented (line 264). -/
def sendPhase {σ : Type} (s : ProdState σ) (inp : TickInput) : ProdState σ :=
  if s.baselineCalibrated = true ∧ s.wifiConnected = true ∧
      SAMPLES_PER_FRAME ≤ s.buffer.length then
    if inp.statusUp then
      { s with emitted := s.emitted ++ [{ frameSequence := s.frameSequence
                                          samples := s.buffer }]
               frameSequence := s.frameSequence + 1
               buffer := [] }
    else
      { s with wifiConnected := inp.reconnectOk, buffer := [] }
  else s

/-- One pass of `loop()` in which the sampling interval has elapsed
(part_000 lines 113-173). Calibration phase (lines 120-146): while
fewer than `CALIBRATION_SAMPLES` readings have been accumulated, add
the raws to the sums; on the following tick compute both baselines by
integer division and switch to streaming, the raws read on that tick
being discarded. Streaming phase: `collectSample()`. Then the send
condition (see `sendPhase`), and the clock advances to the next
tick. -/
def loopTick {σ : Type} (flt : σ → Int → Int × σ)
    (s : ProdState σ) (inp : TickInput) : ProdState σ :=
  let s2 :=
    if s.baselineCalibrated = false then
      if s.calibrationCount < CALIBRATION_SAMPLES then
        { s with calibrationSum1 := s.calibrationSum1 + inp.raw1
                 calibrationSum2 := s.calibrationSum2 + inp.raw2
                 calibrationCount := s.calibrationCount + 1 }
      else
        { s with baseline1 := s.calibrationSum1 / CALIBRATION_SAMPLES
                 baseline2 := s.calibrationSum2 / CALIBRATION_SAMPLES
                 baselineCalibrated := true }
    else
      collectSample flt s inp.raw1 inp.raw2
  let s3 := sendPhase s2 inp
  { s3 with now := s3.now + 1 }

def runProd {σ : Type} (flt : σ → Int → Int × σ) (f0 : σ) (w0 : Bool)
    (inputs : List TickInput) : ProdState σ :=
  inputs.foldl (loopTick flt) (prodInit f0 w0)

/-- The identity filter used to instantiate witnesses; any
`flt : σ → Int → Int × σ` is admissible in the theorems. -/
def idFilter : Unit → Int → Int × Unit := fun u v => (v, u)

/-! ## Specification-side predicates and probe inputs -/

/-- The consistency relation of claim C9: each global aggregate equals
the sum of the corresponding per-device counters. -/
def statsConsistent (s : ServerStats) : Prop :=
  s.framesReceived = (s.devices.map (fun p => p.2.framesReceived)).sum ∧
  s.samplesReceived = (s.devices.map (fun p => p.2.samplesReceived)).sum ∧
  s.droppedFrames = (s.devices.map (fun p => p.2.droppedFrames)).sum

/-- Characterisation of a channel state reached by feeding `xs`: ring
length, cursor position, fill flag, the ring contents read in ring
order (a rotation starting at the cursor equals the last `ARRAY_SIZE`
values of the zero-padded input stream), and the exponential
accumulator. -/
def ChanInv (xs : List Nat) (s : ChanState) : Prop :=
  s.ring.length = ARRAY_SIZE ∧
  s.idx = xs.length % ARRAY_SIZE ∧
  s.full = decide (ARRAY_SIZE ≤ xs.length) ∧
  s.ring.drop s.idx ++ s.ring.take s.idx =
    (List.replicate ARRAY_SIZE 0 ++ xs).drop xs.length ∧
  s.ema = specEma xs (xs.length - 1)

/-- All samples serialized into emitted frames, in emission order. -/
def emittedSamples {σ : Type} (s : ProdState σ) : List EMGSample :=
  (s.emitted.map (fun f => f.samples)).flatten

/-- Invariant of the producer loop used for claim C5: the buffer is
bounded, every emitted frame is bounded, all recorded timestamps are
in the past, and a discarded sample is in no emitted frame and not in
the buffer. -/
def ProdInv {σ : Type} (s : ProdState σ) : Prop :=
  s.buffer.length ≤ SAMPLES_PER_FRAME ∧
  (∀ f ∈ s.emitted, f.samples.length ≤ SAMPLES_PER_FRAME) ∧
  (∀ x ∈ s.buffer, x.t < s.now) ∧
  (∀ x ∈ emittedSamples s, x.t < s.now) ∧
  (∀ x ∈ s.discarded, x.t < s.now) ∧
  (∀ x ∈ s.discarded, x ∉ emittedSamples s ∧ x ∉ s.buffer)

/-- Tick inputs exhibiting the exact-mean/integer-mean divergence of
the baseline: one reading of `150` followed by a hundred readings of
`0` (the 101st tick completes calibration). -/
def calibProbeInputs : List TickInput :=
  { raw1 := 150, raw2 := 0, statusUp := true, reconnectOk := true } ::
    List.replicate 100 { raw1 := 0, raw2 := 0, statusUp := true, reconnectOk := true }

/-- Filtered-value stream exhibiting the exact-mean/integer-mean
divergence of the smoothed value: ring sum `43` at the fill tick. -/
def emaProbeInput : List Nat := 43 :: List.replicate 14 0

/-- Tick inputs whose run emits one frame, later loses connectivity
with a full buffer, and finally discards a sample on the full buffer:
101 calibration ticks, 10 collection ticks ending in a successful
send, 10 collection ticks ending in a failed send (wifi stays down),
10 further collection ticks filling the buffer, one final tick whose
sample is discarded. -/
def c5ProbeInputs : List TickInput :=
  List.replicate 120 { raw1 := 0, raw2 := 0, statusUp := true, reconnectOk := true } ++
    [{ raw1 := 0, raw2 := 0, statusUp := false, reconnectOk := false }] ++
    List.replicate 11 { raw1 := 0, raw2 := 0, statusUp := true, reconnectOk := true }

/-- The frame the `c5ProbeInputs` run emits: sequence `0`, ten all-zero
samples with timestamps `101..110`. -/
def c5ProbeFrame : Frame :=
  { frameSequence := 0
    samples := (List.range 10).map
      (fun k => { t := 101 + k, raw1 := 0, ema1 := 0, raw2 := 0, ema2 := 0 }) }

/-- The sample the `c5ProbeInputs` run discards at tick 132. -/
def c5ProbeSample : EMGSample := { t := 131, raw1 := 0, ema1 := 0, raw2 := 0, ema2 := 0 }

/-! ## Theorems

First the device-map bookkeeping lemmas, then the collector claims,
then the producer claims. -/

theorem lookupD_upsert_self (l : List (String × DeviceStats)) (k : String) (v : DeviceStats) :
    lookupD (upsert l k v) k = some v := by
  induction l with
  | nil => simp [upsert, lookupD]
  | cons p rest ih =>
      by_cases h : p.1 = k
      · simp [upsert, h, lookupD]
      · simp [upsert, h, lookupD, ih]

theorem lookupD_upsert_ne (l : List (String × DeviceStats)) (k k2 : String) (v : DeviceStats)
    (h : k2 ≠ k) : lookupD (upsert l k v) k2 = lookupD l k2 := by
  induction l with
  | nil => simp [upsert, lookupD, Ne.symm h]
  | cons p rest ih =>
      by_cases hp : p.1 = k
      · simp [upsert, hp, lookupD, Ne.symm h]
      · by_cases hq : p.1 = k2 <;> simp [upsert, hp, lookupD, hq, ih, h]

theorem devStatsOf_ingest_self (st : ServerState) (f : FrameMsg) :
    devStatsOf (ingest st f).stats f.deviceId =
      devIngest (devStatsOf st.stats f.deviceId) f.frameSequence f.samplesInFrame := by
  simp [ingest, devStatsOf, lookupD_upsert_self]

theorem devStatsOf_ingest_ne (st : ServerState) (f : FrameMsg) (d : String)
    (h : d ≠ f.deviceId) : devStatsOf (ingest st f).stats d = devStatsOf st.stats d := by
  simp [ingest, devStatsOf, lookupD_upsert_ne _ _ _ _ h]

theorem devStatsOf_ingestList (fs : List FrameMsg) (st : ServerState) (d : String) :
    devStatsOf (ingestList st fs).stats d =
      ((fs.filter (fun f => decide (f.deviceId = d))).map
          (fun f => (f.frameSequence, f.samplesInFrame))).foldl
        (fun ds p => devIngest ds p.1 p.2) (devStatsOf st.stats d) := by
  induction fs generalizing st with
  | nil => simp [ingestList]
  | cons f rest ih =>
      have hL : ingestList st (f :: rest) = ingestList (ingest st f) rest := rfl
      by_cases h : f.deviceId = d
      · subst h
        rw [hL, ih]
        simp [devStatsOf_ingest_self]
      · rw [hL, ih]
        simp [h, devStatsOf_ingest_ne st f d (fun hh => h hh.symm)]

theorem devFold_droppedFrames (ps : List (Int × Nat)) (ds : DeviceStats) :
    (ps.foldl (fun ds p => devIngest ds p.1 p.2) ds).droppedFrames =
      ds.droppedFrames + dropSpec ds.lastFrameSequence (ps.map (fun p => p.1)) := by
  induction ps generalizing ds with
  | nil => simp [dropSpec]
  | cons p rest ih =>
      simp only [List.foldl_cons, List.map_cons, dropSpec]
      rw [ih]
      simp only [devIngest]
      omega

theorem devFold_lastFrameSequence (ps : List (Int × Nat)) (ds : DeviceStats) :
    (ps.foldl (fun ds p => devIngest ds p.1 p.2) ds).lastFrameSequence =
      (ps.map (fun p => p.1)).getLast?.getD ds.lastFrameSequence := by
  induction ps generalizing ds with
  | nil => simp
  | cons p rest ih =>
      cases rest with
      | nil => simp [devIngest]
      | cons q qs =>
          rw [List.foldl_cons, ih]
          have hne : (q.1 :: List.map (fun p => p.1) qs) ≠ [] := by simp
          obtain ⟨z, hz⟩ := Option.isSome_iff_exists.mp (List.getLast?_isSome.mpr hne)
          simp [List.getLast?_cons_cons, hz]

theorem devStatsOf_init (d : String) : devStatsOf serverInit.stats d = DeviceStats.fresh := by
  simp [serverInit, statsInit, devStatsOf, lookupD]

/-- C1: for every device, after any sequence of ingest calls, the
per-device `droppedFrames` counter equals the fold of positive gaps
`seq - (last + 1)` over the sequence numbers arriving for the device,
counted only when the stored `lastFrameSequence` is not the `-1`
sentinel and the arriving sequence exceeds `last + 1`; a call with
`frameSequence <= lastFrameSequence + 1` leaves both dropped counters
unchanged; and `lastFrameSequence` is set to the arriving sequence
unconditionally (it ends as the last sequence arriving for the
device). -/
theorem droppedFrames_eq_sum_of_gaps :
    (∀ (fs : List FrameMsg) (d : String),
        (devStatsOf (ingestList serverInit fs).stats d).droppedFrames =
          dropSpec (-1) ((fs.filter (fun f => decide (f.deviceId = d))).map
            (fun f => f.frameSequence)) ∧
        (devStatsOf (ingestList serverInit fs).stats d).lastFrameSequence =
          ((fs.filter (fun f => decide (f.deviceId = d))).map
            (fun f => f.frameSequence)).getLast?.getD (-1)) ∧
    (∀ (st : ServerState) (f : FrameMsg),
        f.frameSequence ≤ (devStatsOf st.stats f.deviceId).lastFrameSequence + 1 →
        (ingest st f).stats.droppedFrames = st.stats.droppedFrames ∧
        (devStatsOf (ingest st f).stats f.deviceId).droppedFrames =
          (devStatsOf st.stats f.deviceId).droppedFrames ∧
        (devStatsOf (ingest st f).stats f.deviceId).lastFrameSequence = f.frameSequence) := by
  constructor
  · intro fs d
    have h1 := devStatsOf_ingestList fs serverInit d
    rw [devStatsOf_init] at h1
    constructor
    · rw [h1, devFold_droppedFrames, List.map_map]
      show (0 : Int) + _ = _
      rw [zero_add]
      rfl
    · rw [h1, devFold_lastFrameSequence, List.map_map]
      rfl
  · intro st f h
    have hg : gap (devStatsOf st.stats f.deviceId).lastFrameSequence f.frameSequence = 0 := by
      unfold gap
      rw [if_neg]
      rintro ⟨h1, h2⟩
      omega
    refine ⟨?_, ?_, ?_⟩
    · simp [ingest, hg]
    · rw [devStatsOf_ingest_self]
      simp [devIngest, hg]
    · rw [devStatsOf_ingest_self]
      rfl

theorem droppedFrames_eq_sum_of_gaps_witness :
    (devStatsOf (ingestList serverInit
        [⟨"D1", 0, 10⟩, ⟨"D1", 1, 10⟩, ⟨"D1", 2, 10⟩, ⟨"D1", 5, 10⟩]).stats ("D1")).droppedFrames =
      dropSpec (-1) (([⟨"D1", 0, 10⟩, ⟨"D1", 1, 10⟩, ⟨"D1", 2, 10⟩,
          (⟨"D1", 5, 10⟩ : FrameMsg)].filter (fun f => decide (f.deviceId = "D1"))).map
        (fun f => f.frameSequence)) ∧
    (devStatsOf (ingestList serverInit
        [⟨"D1", 0, 10⟩, ⟨"D1", 1, 10⟩, ⟨"D1", 2, 10⟩, ⟨"D1", 5, 10⟩]).stats ("D1")).droppedFrames = 2 ∧
    (ingest (ingestList serverInit [⟨"D1", 5, 0⟩]) ⟨"D1", 3, 0⟩).stats.droppedFrames =
      (ingestList serverInit [⟨"D1", 5, 0⟩]).stats.droppedFrames :=
  ⟨(droppedFrames_eq_sum_of_gaps.1 _ ("D1")).1, by decide,
    (droppedFrames_eq_sum_of_gaps.2 (ingestList serverInit [⟨"D1", 5, 0⟩]) ⟨"D1", 3, 0⟩
      (by decide)).1⟩

theorem gap_nonneg (last seq : Int) : 0 ≤ gap last seq := by
  unfold gap
  split
  · omega
  · omega

/-- C8: each ingest call adds a nonnegative amount to both dropped
counters, so they are monotonically non-decreasing across ingest
calls; a frame whose sequence regresses below the stored
`lastFrameSequence` never subtracts from them and only rewinds
`lastFrameSequence`; and a later in-order frame can then add a
positive gap for frames already received, as the run `5, 2, 5` on one
device shows (two frames counted dropped although every sequence was
seen). -/
theorem droppedFrames_monotone :
    (∀ (st : ServerState) (f : FrameMsg),
        st.stats.droppedFrames ≤ (ingest st f).stats.droppedFrames ∧
        ∀ d : String,
          (devStatsOf st.stats d).droppedFrames ≤
            (devStatsOf (ingest st f).stats d).droppedFrames) ∧
    (∀ (st : ServerState) (f : FrameMsg),
        f.frameSequence < (devStatsOf st.stats f.deviceId).lastFrameSequence →
        (ingest st f).stats.droppedFrames = st.stats.droppedFrames ∧
        (devStatsOf (ingest st f).stats f.deviceId).droppedFrames =
          (devStatsOf st.stats f.deviceId).droppedFrames ∧
        (devStatsOf (ingest st f).stats f.deviceId).lastFrameSequence = f.frameSequence) ∧
    ((ingestList serverInit
        [⟨"D1", 5, 0⟩, ⟨"D1", 2, 0⟩, ⟨"D1", 5, 0⟩]).stats.droppedFrames = 2 ∧
      (devStatsOf (ingestList serverInit
        [⟨"D1", 5, 0⟩, ⟨"D1", 2, 0⟩, ⟨"D1", 5, 0⟩]).stats ("D1")).droppedFrames = 2) := by
  refine ⟨?_, ?_, by decide⟩
  · intro st f
    constructor
    · have hn := gap_nonneg (devStatsOf st.stats f.deviceId).lastFrameSequence f.frameSequence
      simp only [ingest]
      omega
    · intro d
      by_cases h : d = f.deviceId
      · subst h
        rw [devStatsOf_ingest_self]
        have hn := gap_nonneg (devStatsOf st.stats f.deviceId).lastFrameSequence f.frameSequence
        simp [devIngest]
        omega
      · rw [devStatsOf_ingest_ne st f d h]
  · intro st f h
    have hg : gap (devStatsOf st.stats f.deviceId).lastFrameSequence f.frameSequence = 0 := by
      unfold gap
      rw [if_neg]
      rintro ⟨h1, h2⟩
      omega
    refine ⟨?_, ?_, ?_⟩
    · simp [ingest, hg]
    · rw [devStatsOf_ingest_self]
      simp [devIngest, hg]
    · rw [devStatsOf_ingest_self]
      rfl

theorem droppedFrames_monotone_witness :
    (ingest (ingestList serverInit [⟨"D1", 9, 0⟩]) ⟨"D1", 4, 0⟩).stats.droppedFrames =
      (ingestList serverInit [⟨"D1", 9, 0⟩]).stats.droppedFrames ∧
    (devStatsOf (ingest (ingestList serverInit [⟨"D1", 9, 0⟩]) ⟨"D1", 4, 0⟩).stats
        ("D1")).lastFrameSequence = 4 ∧
    (ingestList serverInit [⟨"D1", 9, 0⟩]).stats.droppedFrames ≤
      (ingest (ingestList serverInit [⟨"D1", 9, 0⟩]) ⟨"D1", 4, 0⟩).stats.droppedFrames :=
  ⟨(droppedFrames_monotone.2.1 _ _ (by decide)).1,
    (droppedFrames_monotone.2.1 (ingestList serverInit [⟨"D1", 9, 0⟩]) ⟨"D1", 4, 0⟩
      (by decide)).2.2,
    (droppedFrames_monotone.1 _ _).1⟩

/-! ### C2: bounded history store -/

theorem ingestList_recentFrames (fs : List FrameMsg) (st : ServerState) :
    (ingestList st fs).recentFrames = fs.foldl pushCapped st.recentFrames := by
  induction fs generalizing st with
  | nil => rfl
  | cons f rest ih =>
      have h : ingestList st (f :: rest) = ingestList (ingest st f) rest := rfl
      rw [h, ih, List.foldl_cons]
      rfl

theorem pushCapped_lt {α : Type} (l : List α) (x : α)
    (h : l.length + 1 ≤ MAX_STORED_FRAMES) : pushCapped l x = l ++ [x] := by
  have hc : ¬ (MAX_STORED_FRAMES < (l ++ [x]).length) := by
    simp only [List.length_append, List.length_singleton]
    omega
  show (if MAX_STORED_FRAMES < (l ++ [x]).length then (l ++ [x]).tail else (l ++ [x])) = l ++ [x]
  rw [if_neg hc]

theorem pushCapped_full {α : Type} (l : List α) (x : α)
    (h : MAX_STORED_FRAMES ≤ l.length) : pushCapped l x = l.drop 1 ++ [x] := by
  have hM : 0 < MAX_STORED_FRAMES := by norm_num [MAX_STORED_FRAMES]
  have hc : MAX_STORED_FRAMES < (l ++ [x]).length := by
    simp only [List.length_append, List.length_singleton]
    omega
  show (if MAX_STORED_FRAMES < (l ++ [x]).length then (l ++ [x]).tail else (l ++ [x])) =
    l.drop 1 ++ [x]
  rw [if_pos hc, ← List.drop_one, List.drop_append_eq_append_drop]
  have h1 : 1 - l.length = 0 := by omega
  rw [h1, List.drop_zero]

theorem foldl_pushCapped_drop (fs : List FrameMsg) :
    fs.foldl pushCapped ([] : List FrameMsg) = fs.drop (fs.length - MAX_STORED_FRAMES) := by
  induction fs using List.reverseRecOn with
  | nil => rfl
  | append_singleton l x ih =>
      rw [List.foldl_append, List.foldl_cons, List.foldl_nil, ih]
      by_cases h : l.length < MAX_STORED_FRAMES
      · have hk : l.length - MAX_STORED_FRAMES = 0 := by omega
        have hk2 : (l ++ [x]).length - MAX_STORED_FRAMES = 0 := by
          simp only [List.length_append, List.length_singleton]
          omega
        rw [hk, hk2, List.drop_zero, List.drop_zero]
        exact pushCapped_lt l x (by omega)
      · push_neg at h
        have hM : 0 < MAX_STORED_FRAMES := by norm_num [MAX_STORED_FRAMES]
        have hlen : (l.drop (l.length - MAX_STORED_FRAMES)).length = MAX_STORED_FRAMES := by
          rw [List.length_drop]
          omega
        rw [pushCapped_full _ x (by omega), List.drop_drop]
        have h1 : (l ++ [x]).length - MAX_STORED_FRAMES = l.length - MAX_STORED_FRAMES + 1 := by
          simp only [List.length_append, List.length_singleton]
          omega
        rw [h1, List.drop_append_eq_append_drop]
        have h2 : l.length - MAX_STORED_FRAMES + 1 - l.length = 0 := by omega
        rw [h2, List.drop_zero]

/-- C2: after any sequence of ingest calls the history store never
holds more than `MAX_STORED_FRAMES` frames, and once more than
`MAX_STORED_FRAMES` frames have been ingested it holds exactly the
most recently ingested `MAX_STORED_FRAMES` frames, in insertion order
(oldest first, newest last). -/
theorem historyStore_bounded (fs : List FrameMsg) :
    ((ingestList serverInit fs).recentFrames).length ≤ MAX_STORED_FRAMES ∧
    (MAX_STORED_FRAMES < fs.length →
      (ingestList serverInit fs).recentFrames = fs.drop (fs.length - MAX_STORED_FRAMES) ∧
      ((ingestList serverInit fs).recentFrames).length = MAX_STORED_FRAMES) := by
  have h0 : (ingestList serverInit fs).recentFrames =
      fs.drop (fs.length - MAX_STORED_FRAMES) := by
    rw [ingestList_recentFrames]
    exact foldl_pushCapped_drop fs
  have hM : 0 < MAX_STORED_FRAMES := by norm_num [MAX_STORED_FRAMES]
  constructor
  · rw [h0, List.length_drop]
    omega
  · intro h
    refine ⟨h0, ?_⟩
    rw [h0, List.length_drop]
    omega

theorem historyStore_bounded_witness :
    ((ingestList serverInit (List.replicate 1001 ⟨"D1", 0, 0⟩)).recentFrames).length =
      MAX_STORED_FRAMES :=
  ((historyStore_bounded (List.replicate 1001 ⟨"D1", 0, 0⟩)).2
    (by rw [List.length_replicate]; norm_num [MAX_STORED_FRAMES])).2

/-! ### C9: aggregate counters equal the per-device sums -/

theorem sum_upsert_notfound {M : Type} [AddCommMonoid M] (g : DeviceStats → M)
    (l : List (String × DeviceStats)) (k : String) (v : DeviceStats)
    (h : lookupD l k = none) :
    ((upsert l k v).map (fun p => g p.2)).sum = (l.map (fun p => g p.2)).sum + g v := by
  induction l with
  | nil => simp [upsert]
  | cons p rest ih =>
      simp only [lookupD] at h
      by_cases hp : p.1 = k
      · rw [if_pos hp] at h
        simp at h
      · rw [if_neg hp] at h
        simp only [upsert, if_neg hp, List.map_cons, List.sum_cons, ih h, add_assoc]

theorem sum_upsert_found {M : Type} [AddCommMonoid M] (g : DeviceStats → M)
    (l : List (String × DeviceStats)) (k : String) (v d : DeviceStats)
    (h : lookupD l k = some d) :
    ((upsert l k v).map (fun p => g p.2)).sum + g d =
      (l.map (fun p => g p.2)).sum + g v := by
  induction l with
  | nil => simp [lookupD] at h
  | cons p rest ih =>
      simp only [lookupD] at h
      by_cases hp : p.1 = k
      · rw [if_pos hp] at h
        obtain rfl : p.2 = d := by injection h
        simp only [upsert, if_pos hp, List.map_cons, List.sum_cons]
        simp [add_comm, add_left_comm, add_assoc]
      · rw [if_neg hp] at h
        simp only [upsert, if_neg hp, List.map_cons, List.sum_cons]
        rw [add_assoc, ih h, ← add_assoc]

theorem statsConsistent_ingest (st : ServerState) (f : FrameMsg)
    (h : statsConsistent st.stats) : statsConsistent (ingest st f).stats := by
  obtain ⟨h1, h2, h3⟩ := h
  cases hl : lookupD st.stats.devices f.deviceId with
  | none =>
      have hds : devStatsOf st.stats f.deviceId = DeviceStats.fresh := by
        simp [devStatsOf, hl]
      have e1 := sum_upsert_notfound (fun ds => ds.framesReceived) st.stats.devices
        f.deviceId (devIngest (devStatsOf st.stats f.deviceId) f.frameSequence
          f.samplesInFrame) hl
      have e2 := sum_upsert_notfound (fun ds => ds.samplesReceived) st.stats.devices
        f.deviceId (devIngest (devStatsOf st.stats f.deviceId) f.frameSequence
          f.samplesInFrame) hl
      have e3 := sum_upsert_notfound (fun ds => ds.droppedFrames) st.stats.devices
        f.deviceId (devIngest (devStatsOf st.stats f.deviceId) f.frameSequence
          f.samplesInFrame) hl
      refine ⟨?_, ?_, ?_⟩ <;>
        simp only [ingest, e1, e2, e3, hds, devIngest, DeviceStats.fresh] at * <;>
        omega
  | some d =>
      have hds : devStatsOf st.stats f.deviceId = d := by
        simp [devStatsOf, hl]
      have e1 := sum_upsert_found (fun ds => ds.framesReceived) st.stats.devices
        f.deviceId (devIngest (devStatsOf st.stats f.deviceId) f.frameSequence
          f.samplesInFrame) d hl
      have e2 := sum_upsert_found (fun ds => ds.samplesReceived) st.stats.devices
        f.deviceId (devIngest (devStatsOf st.stats f.deviceId) f.frameSequence
          f.samplesInFrame) d hl
      have e3 := sum_upsert_found (fun ds => ds.droppedFrames) st.stats.devices
        f.deviceId (devIngest (devStatsOf st.stats f.deviceId) f.frameSequence
          f.samplesInFrame) d hl
      refine ⟨?_, ?_, ?_⟩ <;>
        simp only [ingest, hds, devIngest] at * <;>
        omega

theorem statsConsistent_applyOp (st : ServerState) (op : ServerOp)
    (h : statsConsistent st.stats) : statsConsistent (applyOp st op).stats := by
  cases op with
  | frame f => exact statsConsistent_ingest st f h
  | reset c => simp [applyOp, resetStats, statsConsistent, statsInit]

/-- C9: after any sequence of ingest and reset operations, each global
aggregate counter (`framesReceived`, `samplesReceived`,
`droppedFrames`) equals the sum of the corresponding counters over all
entries of the device map. -/
theorem global_stats_eq_device_sums (ops : List ServerOp) :
    statsConsistent (runOps ops).stats := by
  have main : ∀ (l : List ServerOp) (st : ServerState),
      statsConsistent st.stats → statsConsistent (l.foldl applyOp st).stats := by
    intro l
    induction l with
    | nil => intro st h; exact h
    | cons op rest ih =>
        intro st h
        exact ih _ (statsConsistent_applyOp st op h)
  exact main ops serverInit (by simp [statsConsistent, serverInit, statsInit])

/-! ### C10: list-recent limit semantics -/

theorem deviceFilter_length_le (store : List FrameMsg) (q : Option String) :
    (deviceFilter store q).length ≤ store.length := by
  cases q with
  | none => exact le_refl _
  | some d => exact List.length_filter_le _ _

/-- C10: a `limit` query parameter that is absent, unparsable (`NaN`)
or `0` is treated as no limit: the response contains every stored
frame surviving the optional `deviceId` filter; for a positive limit
`L` the response contains exactly the last `min(L, matching)` matching
frames in storage order. -/
theorem listRecent_limit_semantics (store : List FrameMsg) (deviceQ : Option String) :
    getFramesResult store none deviceQ = deviceFilter store deviceQ ∧
    getFramesResult store (some 0) deviceQ = deviceFilter store deviceQ ∧
    (∀ L : Int, 0 < L →
      getFramesResult store (some L) deviceQ =
        (deviceFilter store deviceQ).drop
          ((deviceFilter store deviceQ).length - L.toNat) ∧
      ((deviceFilter store deviceQ).drop
          ((deviceFilter store deviceQ).length - L.toNat)).length =
        min L.toNat (deviceFilter store deviceQ).length) := by
  have hle := deviceFilter_length_le store deviceQ
  have hdef : jsSlice (deviceFilter store deviceQ) (-(store.length : Int)) =
      deviceFilter store deviceQ := by
    by_cases h : store.length = 0
    · rw [h]
      simp [jsSlice]
    · have hpos : 0 < store.length := Nat.pos_of_ne_zero h
      unfold jsSlice
      rw [if_pos (by omega), neg_neg, Int.toNat_natCast]
      have h0 : (deviceFilter store deviceQ).length - store.length = 0 := by omega
      rw [h0, List.drop_zero]
  refine ⟨?_, ?_, ?_⟩
  · simp only [getFramesResult]
    exact hdef
  · simp only [getFramesResult, if_pos rfl]
    exact hdef
  · intro L hL
    constructor
    · simp only [getFramesResult]
      rw [if_neg (by omega)]
      unfold jsSlice
      rw [if_pos (by omega), neg_neg]
    · rw [List.length_drop]
      omega

theorem listRecent_limit_semantics_witness :
    getFramesResult [⟨"A", 0, 1⟩, ⟨"B", 1, 1⟩, ⟨"A", 2, 1⟩] (some 2) none =
      (deviceFilter [⟨"A", 0, 1⟩, ⟨"B", 1, 1⟩, ⟨"A", 2, 1⟩] none).drop
        ((deviceFilter [⟨"A", 0, 1⟩, ⟨"B", 1, 1⟩, ⟨"A", 2, 1⟩] none).length -
          (2 : Int).toNat) ∧
    getFramesResult [⟨"A", 0, 1⟩, ⟨"B", 1, 1⟩, ⟨"A", 2, 1⟩] (some 2) none =
      [⟨"B", 1, 1⟩, ⟨"A", 2, 1⟩] :=
  ⟨((listRecent_limit_semantics [⟨"A", 0, 1⟩, ⟨"B", 1, 1⟩, ⟨"A", 2, 1⟩] none).2.2 2
      (by norm_num)).1,
    by decide⟩

/-! ### C6: fan-out delivery failure handling -/

theorem broadcastStep_foldl (cs : List WsClient) (acc : List Nat) :
    cs.foldl broadcastStep acc =
      acc ++ (cs.filter (fun c => c.readyStateOpen && !c.sendFails)).map (fun c => c.id) := by
  induction cs generalizing acc with
  | nil => simp
  | cons c rest ih =>
      rw [List.foldl_cons, ih]
      cases h1 : c.readyStateOpen <;> cases h2 : c.sendFails <;>
        simp [broadcastStep, h1, h2]

/-- C6 counterexample: with two open subscribers of which the first
one throws on delivery, `broadcast` still delivers to the second but
the failing subscriber remains in the fan-out set afterwards — it is
not removed when the failure is observed, contradicting the claim. -/
theorem broadcast_failure_not_removed :
    (broadcastRun [⟨0, true, true⟩, ⟨1, true, false⟩]).1 =
      [⟨0, true, true⟩, ⟨1, true, false⟩] ∧
    (⟨0, true, true⟩ : WsClient) ∈ (broadcastRun [⟨0, true, true⟩, ⟨1, true, false⟩]).1 ∧
    (broadcastRun [⟨0, true, true⟩, ⟨1, true, false⟩]).2 = [1] :=
  ⟨rfl, by decide, by decide⟩

/-- C6 (amended): a delivery failure during broadcast is caught and
ignored: the subscriber set is left unchanged by `broadcast` itself
(the failing subscriber is removed only when its `close` event fires,
via the close handler, which removes exactly that subscriber), while
delivery to every other open, non-failing subscriber — and the
ingestion path, which `broadcast` returns to normally — proceeds
unaffected. -/
theorem broadcast_failure_isolated (cs : List WsClient) (ws : WsClient) :
    (broadcastRun cs).1 = cs ∧
    (broadcastRun cs).2 =
      (cs.filter (fun c => c.readyStateOpen && !c.sendFails)).map (fun c => c.id) ∧
    ws ∉ onCloseHandler cs ws ∧
    (∀ c, c ∈ cs → c ≠ ws → c ∈ onCloseHandler cs ws) := by
  refine ⟨rfl, ?_, ?_, ?_⟩
  · show cs.foldl broadcastStep [] = _
    rw [broadcastStep_foldl, List.nil_append]
  · simp [onCloseHandler]
  · intro c hc hne
    simp [onCloseHandler, List.mem_filter, hc, hne]

theorem broadcast_failure_isolated_witness :
    (broadcastRun [⟨0, true, true⟩, ⟨1, true, false⟩]).2 =
      ([(⟨0, true, true⟩ : WsClient), ⟨1, true, false⟩].filter
        (fun c => c.readyStateOpen && !c.sendFails)).map (fun c => c.id) ∧
    (⟨1, true, false⟩ : WsClient) ∈
      onCloseHandler [⟨0, true, true⟩, ⟨1, true, false⟩] ⟨0, true, true⟩ :=
  ⟨(broadcast_failure_isolated [⟨0, true, true⟩, ⟨1, true, false⟩] ⟨0, true, true⟩).2.1,
    (broadcast_failure_isolated [⟨0, true, true⟩, ⟨1, true, false⟩] ⟨0, true, true⟩).2.2.2
      ⟨1, true, false⟩ (by decide) (by decide)⟩

/-- C7: a request whose processing throws gets a local
`success: false` error response while the collector state is left
completely unchanged — no counter update, no history store entry, no
broadcast (in the source the only fallible expression of the handler
body is the first field access, which precedes every mutation, and the
broadcast loop catches its own per-client errors); and a structurally
valid (object) body is never rejected. -/
theorem emg_error_local_and_no_reject (st : ServerState) (dev : Option String)
    (seq : Int) (cnt : Option Nat) :
    (handleEmg st .malformed).state = st ∧
    (handleEmg st .malformed).state.recentFrames = st.recentFrames ∧
    (handleEmg st .malformed).state.stats = st.stats ∧
    (handleEmg st .malformed).response.success = false ∧
    (handleEmg st .malformed).broadcastPayload = none ∧
    (handleEmg st (.obj dev seq cnt)).response.success = true :=
  ⟨rfl, rfl, rfl, rfl, rfl, rfl⟩

/-! ### C3: baseline calibration -/

theorem collectSample_base {σ : Type} (flt : σ → Int → Int × σ)
    (s : ProdState σ) (r1 r2 : Nat) :
    (collectSample flt s r1 r2).baselineCalibrated = s.baselineCalibrated ∧
    (collectSample flt s r1 r2).baseline1 = s.baseline1 ∧
    (collectSample flt s r1 r2).baseline2 = s.baseline2 := by
  by_cases h : s.buffer.length < SAMPLES_PER_FRAME <;> simp [collectSample, h]

theorem sendPhase_base {σ : Type} (s : ProdState σ) (inp : TickInput) :
    (sendPhase s inp).baselineCalibrated = s.baselineCalibrated ∧
    (sendPhase s inp).baseline1 = s.baseline1 ∧
    (sendPhase s inp).baseline2 = s.baseline2 ∧
    (sendPhase s inp).now = s.now ∧
    (sendPhase s inp).discarded = s.discarded ∧
    (sendPhase s inp).calibrationCount = s.calibrationCount ∧
    (sendPhase s inp).calibrationSum1 = s.calibrationSum1 ∧
    (sendPhase s inp).calibrationSum2 = s.calibrationSum2 := by
  unfold sendPhase
  split
  · split <;> exact ⟨rfl, rfl, rfl, rfl, rfl, rfl, rfl, rfl⟩
  · exact ⟨rfl, rfl, rfl, rfl, rfl, rfl, rfl, rfl⟩

theorem sendPhase_skip {σ : Type} (s : ProdState σ) (inp : TickInput)
    (h : ¬ (s.baselineCalibrated = true ∧ s.wifiConnected = true ∧
        SAMPLES_PER_FRAME ≤ s.buffer.length)) :
    sendPhase s inp = s := by
  unfold sendPhase
  rw [if_neg h]

theorem loopTick_calibrating_acc {σ : Type} (flt : σ → Int → Int × σ)
    (s : ProdState σ) (inp : TickInput)
    (hc : s.baselineCalibrated = false) (hcnt : s.calibrationCount < CALIBRATION_SAMPLES) :
    loopTick flt s inp =
      { s with calibrationSum1 := s.calibrationSum1 + inp.raw1
               calibrationSum2 := s.calibrationSum2 + inp.raw2
               calibrationCount := s.calibrationCount + 1
               now := s.now + 1 } := by
  simp only [loopTick]
  rw [if_pos hc, if_pos hcnt, sendPhase_skip _ _ (by simp [hc])]

theorem loopTick_calibrating_done {σ : Type} (flt : σ → Int → Int × σ)
    (s : ProdState σ) (inp : TickInput)
    (hc : s.baselineCalibrated = false)
    (hcnt : ¬ (s.calibrationCount < CALIBRATION_SAMPLES)) :
    (loopTick flt s inp).baselineCalibrated = true ∧
    (loopTick flt s inp).baseline1 = s.calibrationSum1 / CALIBRATION_SAMPLES ∧
    (loopTick flt s inp).baseline2 = s.calibrationSum2 / CALIBRATION_SAMPLES := by
  obtain ⟨g0, g1, g2, _⟩ := sendPhase_base
    ({ s with baseline1 := s.calibrationSum1 / CALIBRATION_SAMPLES
              baseline2 := s.calibrationSum2 / CALIBRATION_SAMPLES
              baselineCalibrated := true }) inp
  simp only [loopTick]
  rw [if_pos hc, if_neg hcnt]
  exact ⟨by simp [g0], by simp [g1], by simp [g2]⟩

theorem loopTick_calibrated {σ : Type} (flt : σ → Int → Int × σ)
    (s : ProdState σ) (inp : TickInput) (hc : s.baselineCalibrated = true) :
    (loopTick flt s inp).baselineCalibrated = true ∧
    (loopTick flt s inp).baseline1 = s.baseline1 ∧
    (loopTick flt s inp).baseline2 = s.baseline2 := by
  obtain ⟨b0, b1, b2⟩ := collectSample_base flt s inp.raw1 inp.raw2
  obtain ⟨g0, g1, g2, _⟩ := sendPhase_base (collectSample flt s inp.raw1 inp.raw2) inp
  simp only [loopTick]
  rw [if_neg (by simp [hc])]
  exact ⟨by simp [g0, b0, hc], by simp [g1, b1], by simp [g2, b2]⟩

theorem calib_phase {σ : Type} (flt : σ → Int → Int × σ) (f0 : σ) (w0 : Bool)
    (inputs : List TickInput) :
    ∀ n, n ≤ CALIBRATION_SAMPLES → n ≤ inputs.length →
      ((inputs.take n).foldl (loopTick flt) (prodInit f0 w0)).baselineCalibrated = false ∧
      ((inputs.take n).foldl (loopTick flt) (prodInit f0 w0)).calibrationCount = n ∧
      ((inputs.take n).foldl (loopTick flt) (prodInit f0 w0)).calibrationSum1 =
        ((inputs.take n).map (fun i => i.raw1)).sum ∧
      ((inputs.take n).foldl (loopTick flt) (prodInit f0 w0)).calibrationSum2 =
        ((inputs.take n).map (fun i => i.raw2)).sum := by
  intro n
  induction n with
  | zero =>
      intro _ _
      simp [prodInit]
  | succ n ih =>
      intro hn hlen
      obtain ⟨ih1, ih2, ih3, ih4⟩ := ih (by omega) (by omega)
      have hlt : n < inputs.length := by omega
      have htake : inputs.take (n + 1) = inputs.take n ++ [inputs[n]] := by
        rw [List.take_succ, List.getElem?_eq_getElem hlt]
        rfl
      rw [htake, List.foldl_append, List.foldl_cons, List.foldl_nil,
        loopTick_calibrating_acc flt _ _ ih1 (by rw [ih2]; omega)]
      refine ⟨by simp [ih1], by simp [ih2], ?_, ?_⟩
      · simp only [List.map_append, List.sum_append, List.map_cons, List.map_nil,
          List.sum_cons, List.sum_nil, add_zero, ← ih3]
      · simp only [List.map_append, List.sum_append, List.map_cons, List.map_nil,
          List.sum_cons, List.sum_nil, add_zero, ← ih4]

theorem calib_complete_run {σ : Type} (flt : σ → Int → Int × σ) (f0 : σ) (w0 : Bool)
    (inputs : List TickInput) (hlen : CALIBRATION_SAMPLES + 1 ≤ inputs.length) :
    ((inputs.take (CALIBRATION_SAMPLES + 1)).foldl (loopTick flt)
        (prodInit f0 w0)).baselineCalibrated = true ∧
    ((inputs.take (CALIBRATION_SAMPLES + 1)).foldl (loopTick flt)
        (prodInit f0 w0)).baseline1 =
      ((inputs.take CALIBRATION_SAMPLES).map (fun i => i.raw1)).sum / CALIBRATION_SAMPLES ∧
    ((inputs.take (CALIBRATION_SAMPLES + 1)).foldl (loopTick flt)
        (prodInit f0 w0)).baseline2 =
      ((inputs.take CALIBRATION_SAMPLES).map (fun i => i.raw2)).sum / CALIBRATION_SAMPLES := by
  obtain ⟨h1, h2, h3, h4⟩ :=
    calib_phase flt f0 w0 inputs CALIBRATION_SAMPLES (le_refl _) (by omega)
  have hlt : CALIBRATION_SAMPLES < inputs.length := by omega
  have htake : inputs.take (CALIBRATION_SAMPLES + 1) =
      inputs.take CALIBRATION_SAMPLES ++ [inputs[CALIBRATION_SAMPLES]] := by
    rw [List.take_succ, List.getElem?_eq_getElem hlt]
    rfl
  rw [htake, List.foldl_append, List.foldl_cons, List.foldl_nil]
  obtain ⟨d1, d2, d3⟩ :=
    loopTick_calibrating_done flt _ inputs[CALIBRATION_SAMPLES] h1 (by rw [h2]; omega)
  exact ⟨d1, by rw [d2, h3], by rw [d3, h4]⟩

theorem calibrated_run_preserved {σ : Type} (flt : σ → Int → Int × σ)
    (s : ProdState σ) (l : List TickInput) (h : s.baselineCalibrated = true) :
    (l.foldl (loopTick flt) s).baselineCalibrated = true ∧
    (l.foldl (loopTick flt) s).baseline1 = s.baseline1 ∧
    (l.foldl (loopTick flt) s).baseline2 = s.baseline2 := by
  induction l generalizing s with
  | nil => exact ⟨h, rfl, rfl⟩
  | cons i rest ih =>
      obtain ⟨p1, p2, p3⟩ := loopTick_calibrated flt s i h
      obtain ⟨q1, q2, q3⟩ := ih (loopTick flt s i) p1
      exact ⟨q1, by rw [List.foldl_cons, q2, p2], by rw [List.foldl_cons, q3, p3]⟩

/-- C3 counterexample: with readings `150, 0, 0, ...` the computed
baseline is `1` (integer division of the sum `150` by `100`), not the
exact mean `3/2` of the first `CALIBRATION_SAMPLES` readings; the
claim as stated (baseline equals the mean) fails on the code. -/
theorem baseline_not_exact_mean :
    ((runProd idFilter () true calibProbeInputs).baseline1 : ℚ) ≠
      ((((calibProbeInputs.take CALIBRATION_SAMPLES).map (fun i => i.raw1)).sum : Nat) : ℚ) /
        (CALIBRATION_SAMPLES : ℚ) := by
  have h1 : (runProd idFilter () true calibProbeInputs).baseline1 = 1 := by decide
  have h2 : ((calibProbeInputs.take CALIBRATION_SAMPLES).map (fun i => i.raw1)).sum = 150 := by
    decide
  rw [h1, h2]
  norm_num [CALIBRATION_SAMPLES]

/-- C3 (amended): for each channel the baseline equals the integer
(floored) mean of the first `CALIBRATION_SAMPLES` raw readings — their
sum divided by `CALIBRATION_SAMPLES` with integer division — it is
computed exactly once per process run (on the tick following the
hundredth reading), and no later raw reading is ever averaged into it:
extending the run arbitrarily leaves both baselines and the
calibrated flag unchanged, so calibration cannot restart. -/
theorem baseline_integer_mean {σ : Type} (flt : σ → Int → Int × σ) (f0 : σ) (w0 : Bool)
    (inputs more : List TickInput) (h : CALIBRATION_SAMPLES + 1 ≤ inputs.length) :
    (runProd flt f0 w0 inputs).baselineCalibrated = true ∧
    (runProd flt f0 w0 inputs).baseline1 =
      ((inputs.take CALIBRATION_SAMPLES).map (fun i => i.raw1)).sum / CALIBRATION_SAMPLES ∧
    (runProd flt f0 w0 inputs).baseline2 =
      ((inputs.take CALIBRATION_SAMPLES).map (fun i => i.raw2)).sum / CALIBRATION_SAMPLES ∧
    (runProd flt f0 w0 (inputs ++ more)).baselineCalibrated = true ∧
    (runProd flt f0 w0 (inputs ++ more)).baseline1 = (runProd flt f0 w0 inputs).baseline1 ∧
    (runProd flt f0 w0 (inputs ++ more)).baseline2 = (runProd flt f0 w0 inputs).baseline2 := by
  have hsplit : runProd flt f0 w0 inputs =
      (inputs.drop (CALIBRATION_SAMPLES + 1)).foldl (loopTick flt)
        ((inputs.take (CALIBRATION_SAMPLES + 1)).foldl (loopTick flt) (prodInit f0 w0)) := by
    show inputs.foldl (loopTick flt) (prodInit f0 w0) = _
    rw [← List.foldl_append, List.take_append_drop]
  obtain ⟨c1, c2, c3⟩ := calib_complete_run flt f0 w0 inputs h
  obtain ⟨p1, p2, p3⟩ :=
    calibrated_run_preserved flt _ (inputs.drop (CALIBRATION_SAMPLES + 1)) c1
  have m1 : (runProd flt f0 w0 inputs).baselineCalibrated = true := by
    rw [hsplit]
    exact p1
  have m2 : (runProd flt f0 w0 inputs).baseline1 =
      ((inputs.take CALIBRATION_SAMPLES).map (fun i => i.raw1)).sum / CALIBRATION_SAMPLES := by
    rw [hsplit, p2, c2]
  have m3 : (runProd flt f0 w0 inputs).baseline2 =
      ((inputs.take CALIBRATION_SAMPLES).map (fun i => i.raw2)).sum / CALIBRATION_SAMPLES := by
    rw [hsplit, p3, c3]
  have hmore : runProd flt f0 w0 (inputs ++ more) =
      more.foldl (loopTick flt) (runProd flt f0 w0 inputs) := by
    show (inputs ++ more).foldl (loopTick flt) (prodInit f0 w0) = _
    rw [List.foldl_append]
    rfl
  obtain ⟨q1, q2, q3⟩ := calibrated_run_preserved flt (runProd flt f0 w0 inputs) more m1
  exact ⟨m1, m2, m3, by rw [hmore]; exact q1, by rw [hmore, q2], by rw [hmore, q3]⟩

theorem baseline_integer_mean_witness :
    (runProd idFilter () true (List.replicate 101 ⟨7, 3, true, true⟩)).baselineCalibrated =
      true ∧
    (runProd idFilter () true (List.replicate 101 ⟨7, 3, true, true⟩)).baseline1 =
      (((List.replicate 101 (⟨7, 3, true, true⟩ : TickInput)).take
        CALIBRATION_SAMPLES).map (fun i => i.raw1)).sum / CALIBRATION_SAMPLES ∧
    (runProd idFilter () true
        (List.replicate 101 ⟨7, 3, true, true⟩ ++ [⟨9, 9, true, true⟩])).baseline1 =
      (runProd idFilter () true (List.replicate 101 ⟨7, 3, true, true⟩)).baseline1 := by
  have h := baseline_integer_mean idFilter () true
    (List.replicate 101 ⟨7, 3, true, true⟩) [⟨9, 9, true, true⟩]
    (by rw [List.length_replicate]; norm_num [CALIBRATION_SAMPLES])
  exact ⟨h.1, h.2.1, h.2.2.2.2.1⟩

/-! ### C4: smoothed value of the channel conditioner -/

theorem chanProc_append (s : ChanState) (l1 l2 : List Nat) :
    chanProc s (l1 ++ l2) =
      ((chanProc (chanProc s l1).1 l2).1,
        (chanProc s l1).2 ++ (chanProc (chanProc s l1).1 l2).2) := by
  induction l1 generalizing s with
  | nil => simp [chanProc]
  | cons v vs ih => simp [chanProc, ih]

theorem ringView_sum (r : List Nat) (c : Nat) : (r.drop c ++ r.take c).sum = r.sum := by
  rw [List.sum_append, add_comm, ← List.sum_append, List.take_append_drop]

theorem ringView_set (r : List Nat) (c v : Nat)
    (hr : r.length = ARRAY_SIZE) (hc : c < ARRAY_SIZE) :
    ((r.set c v).drop (if ARRAY_SIZE ≤ c + 1 then 0 else c + 1)) ++
      ((r.set c v).take (if ARRAY_SIZE ≤ c + 1 then 0 else c + 1)) =
      (r.drop c ++ r.take c).drop 1 ++ [v] := by
  have hcl : c < r.length := by omega
  have hset : r.set c v = r.take c ++ v :: r.drop (c + 1) := by
    rw [List.set_eq_take_append_cons_drop, if_pos hcl]
  have htlen : (r.take c).length = c := by
    rw [List.length_take]
    omega
  have hdlen : (r.drop c).length = ARRAY_SIZE - c := by
    rw [List.length_drop, hr]
  by_cases hA : ARRAY_SIZE ≤ c + 1
  · rw [if_pos hA]
    have hdrop : r.drop (c + 1) = [] := by
      apply List.drop_eq_nil_of_le
      omega
    rw [List.drop_zero, List.take_zero, List.append_nil, hset, hdrop,
      List.drop_append_eq_append_drop]
    have h1 : (r.drop c).drop 1 = [] := by
      apply List.drop_eq_nil_of_le
      omega
    rw [h1, hdlen]
    have h2 : 1 - (ARRAY_SIZE - c) = 0 := by omega
    rw [h2, List.drop_zero, List.nil_append]
  · rw [if_neg hA]
    push_neg at hA
    rw [hset, List.drop_append_eq_append_drop, List.take_append_eq_append_take, htlen]
    have e1 : (r.take c).drop (c + 1) = [] := by
      apply List.drop_eq_nil_of_le
      rw [htlen]
      omega
    have e2 : c + 1 - c = 1 := by omega
    rw [e1, e2, List.nil_append, List.take_take]
    have e3 : min (c + 1) c = c := by omega
    rw [e3]
    show r.drop (c + 1) ++ (r.take c ++ [v]) = (r.drop c ++ r.take c).drop 1 ++ [v]
    rw [List.drop_append_eq_append_drop]
    have e4 : (r.drop c).drop 1 = r.drop (c + 1) := List.drop_drop 1 c r
    have e5 : 1 - (r.drop c).length = 0 := by
      rw [hdlen]
      omega
    rw [e4, e5, List.drop_zero, List.append_assoc]

theorem padded_drop_succ (xs : List Nat) (v : Nat) :
    (List.replicate ARRAY_SIZE 0 ++ (xs ++ [v])).drop (xs ++ [v]).length =
      ((List.replicate ARRAY_SIZE 0 ++ xs).drop xs.length).drop 1 ++ [v] := by
  rw [List.length_append, List.length_singleton, ← List.append_assoc,
    List.drop_append_eq_append_drop]
  have h0 : xs.length + 1 - (List.replicate ARRAY_SIZE 0 ++ xs).length = 0 := by
    simp only [List.length_append, List.length_replicate, ARRAY_SIZE]
    omega
  rw [h0, List.drop_zero, List.drop_drop]

theorem specEma_zero (xs : List Nat) (i : Nat) (h : i + 1 < ARRAY_SIZE) :
    specEma xs i = 0 := by
  cases i with
  | zero => rfl
  | succ j =>
      simp only [specEma]
      rw [if_pos (by omega)]

theorem winAvg_append (xs : List Nat) (v : Nat) (i : Nat) (h : i + 1 ≤ xs.length) :
    winAvg (xs ++ [v]) i = winAvg xs i := by
  unfold winAvg
  rw [List.take_append_eq_append_take]
  have h0 : i + 1 - xs.length = 0 := by omega
  rw [h0, List.take_zero, List.append_nil]

theorem specEma_append (xs : List Nat) (v : Nat) :
    ∀ i, i < xs.length → specEma (xs ++ [v]) i = specEma xs i := by
  intro i
  induction i with
  | zero => intro h; rfl
  | succ j ih =>
      intro h
      simp only [specEma]
      by_cases hc : j + 2 < ARRAY_SIZE
      · rw [if_pos hc, if_pos hc]
      · rw [if_neg hc, if_neg hc, winAvg_append xs v (j + 1) (by omega), ih (by omega)]

theorem chanInv_step (xs : List Nat) (s : ChanState) (v : Nat) (h : ChanInv xs s) :
    ChanInv (xs ++ [v]) (chanStep s v).1 ∧
    (chanStep s v).2 =
      (if (xs ++ [v]).length < ARRAY_SIZE then (0 : Int)
       else ⌊specEma (xs ++ [v]) xs.length⌋) := by
  obtain ⟨hlen, hidx, hfull, hview, hema⟩ := h
  have hA : ARRAY_SIZE = 15 := rfl
  have hcn : s.idx < ARRAY_SIZE := by
    rw [hidx, hA]
    omega
  have hys : (xs ++ [v]).length = xs.length + 1 := by
    rw [List.length_append, List.length_singleton]
  -- the updated cursor and fill flag
  have f2 : (if ARRAY_SIZE ≤ s.idx + 1 then 0 else s.idx + 1) =
      (xs.length + 1) % ARRAY_SIZE := by
    rw [hA] at hidx ⊢
    rw [hidx]
    by_cases hw : 15 ≤ xs.length % 15 + 1
    · rw [if_pos (by omega)]
      omega
    · rw [if_neg (by omega)]
      omega
  have f3 : (if ARRAY_SIZE ≤ s.idx + 1 then true else s.full) =
      decide (ARRAY_SIZE ≤ xs.length + 1) := by
    by_cases hw : ARRAY_SIZE ≤ s.idx + 1
    · rw [if_pos hw]
      have hp : ARRAY_SIZE ≤ xs.length + 1 := by
        rw [hA] at hw hidx ⊢
        omega
      rw [decide_eq_true hp]
    · rw [if_neg hw, hfull, decide_eq_decide]
      rw [hA] at hw hidx ⊢
      omega
  have f4 : ((s.ring.set s.idx v).drop ((xs.length + 1) % ARRAY_SIZE)) ++
      ((s.ring.set s.idx v).take ((xs.length + 1) % ARRAY_SIZE)) =
      (List.replicate ARRAY_SIZE 0 ++ (xs ++ [v])).drop (xs ++ [v]).length := by
    rw [← f2, ringView_set s.ring s.idx v hlen hcn, hview, padded_drop_succ]
  have hrlen : (s.ring.set s.idx v).length = ARRAY_SIZE := by
    rw [List.length_set, hlen]
  by_cases hT : ARRAY_SIZE ≤ xs.length + 1
  · -- the ring is (or just became) full: the accumulator is updated
    have hn1 : 1 ≤ xs.length := by
      rw [hA] at hT
      omega
    have hfulltrue : (if ARRAY_SIZE ≤ s.idx + 1 then true else s.full) = true := by
      rw [f3, decide_eq_true hT]
    have hsum : (s.ring.set s.idx v).sum = ((xs ++ [v]).drop (xs.length + 1 - ARRAY_SIZE)).sum := by
      rw [← ringView_sum (s.ring.set s.idx v) ((xs.length + 1) % ARRAY_SIZE), f4, hys,
        List.drop_append_eq_append_drop]
      have hpad : (List.replicate ARRAY_SIZE 0 : List Nat).drop (xs.length + 1) = [] := by
        apply List.drop_eq_nil_of_le
        rw [List.length_replicate]
        omega
      rw [hpad, List.nil_append, List.length_replicate]
    have havg : (s.ring.set s.idx v).sum / ARRAY_SIZE = winAvg (xs ++ [v]) xs.length := by
      rw [hsum]
      unfold winAvg
      congr 2
      rw [← hys, List.take_length]
    have hspec : specEma (xs ++ [v]) xs.length =
        alpha * (winAvg (xs ++ [v]) xs.length : ℚ) + (1 - alpha) * specEma xs (xs.length - 1) := by
      obtain ⟨m, hm⟩ : ∃ m, xs.length = m + 1 := ⟨xs.length - 1, by omega⟩
      rw [hm]
      simp only [specEma]
      rw [if_neg (by rw [hA] at hT ⊢; omega)]
      have hm2 : m + 1 - 1 = m := by omega
      rw [hm2, specEma_append xs v m (by omega)]
    have hout : (chanStep s v).2 = ⌊specEma (xs ++ [v]) xs.length⌋ := by
      simp only [chanStep, hfulltrue, if_true, havg, hema]
      rw [hspec]
    refine ⟨⟨?_, ?_, ?_, ?_, ?_⟩, ?_⟩
    · simp only [chanStep, hfulltrue, if_true]
      exact hrlen
    · simp only [chanStep, hfulltrue, if_true, f2, hys]
    · simp only [chanStep, hfulltrue, if_true, hys]
      rw [decide_eq_true hT]
    · simp only [chanStep, hfulltrue, if_true, f2]
      exact f4
    · simp only [chanStep, hfulltrue, if_true, havg, hema, hys]
      have hm2 : xs.length + 1 - 1 = xs.length := by omega
      rw [hm2, hspec]
    · rw [hout, if_neg (by rw [hys]; omega)]
  · -- the ring has not yet filled: output 0, accumulator untouched
    have hfullfalse : (if ARRAY_SIZE ≤ s.idx + 1 then true else s.full) = false := by
      rw [f3, decide_eq_false hT]
    have hz1 : specEma xs (xs.length - 1) = 0 := by
      apply specEma_zero
      rw [hA] at hT ⊢
      omega
    have hz2 : specEma (xs ++ [v]) ((xs ++ [v]).length - 1) = 0 := by
      apply specEma_zero
      rw [hys]
      rw [hA] at hT ⊢
      omega
    refine ⟨⟨?_, ?_, ?_, ?_, ?_⟩, ?_⟩
    · simp only [chanStep, hfullfalse, Bool.false_eq_true, if_false]
      exact hrlen
    · simp only [chanStep, hfullfalse, Bool.false_eq_true, if_false, f2, hys]
    · simp only [chanStep, hfullfalse, Bool.false_eq_true, if_false, hys]
      rw [decide_eq_false hT]
    · simp only [chanStep, hfullfalse, Bool.false_eq_true, if_false, f2]
      exact f4
    · simp only [chanStep, hfullfalse, Bool.false_eq_true, if_false, hema, hz2]
      rw [hz1]
    · simp only [chanStep, hfullfalse, Bool.false_eq_true, if_false]
      rw [if_pos (by rw [hys]; omega)]

theorem chanRun_spec (xs : List Nat) :
    ChanInv xs (chanStateAfter xs) ∧
    chanOutputs xs = (List.range xs.length).map
      (fun i => if i + 1 < ARRAY_SIZE then (0 : Int) else ⌊specEma xs i⌋) := by
  induction xs using List.reverseRecOn with
  | nil =>
      constructor
      · refine ⟨?_, ?_, ?_, ?_, ?_⟩ <;>
          simp [chanStateAfter, chanProc, chanInit, specEma, ARRAY_SIZE]
      · simp [chanOutputs, chanProc]
  | append_singleton l v ih =>
      obtain ⟨ihInv, ihOut⟩ := ih
      have hstep := chanInv_step l (chanStateAfter l) v ihInv
      have hstate : chanStateAfter (l ++ [v]) = (chanStep (chanStateAfter l) v).1 := by
        unfold chanStateAfter
        rw [chanProc_append]
        simp [chanProc]
      have houts : chanOutputs (l ++ [v]) =
          chanOutputs l ++ [(chanStep (chanStateAfter l) v).2] := by
        unfold chanOutputs
        rw [chanProc_append]
        simp [chanProc, chanStateAfter]
      constructor
      · rw [hstate]
        exact hstep.1
      · rw [houts, ihOut, hstep.2, List.length_append, List.length_singleton,
          List.range_succ, List.map_append]
        congr 1
        apply List.map_congr_left
        intro i hi
        rw [List.mem_range] at hi
        by_cases hc : i + 1 < ARRAY_SIZE
        · rw [if_pos hc, if_pos hc]
        · rw [if_neg hc, if_neg hc, specEma_append l v i hi]

theorem getD_map_range (f : Nat → Int) (n i : Nat) (h : i < n) :
    ((List.range n).map f).getD i 0 = f i := by
  rw [List.getD_eq_getElem?_getD, List.getElem?_map, List.getElem?_range h]
  rfl

/-- C4 counterexample: feeding the channel the fifteen filtered values
`43, 0, ..., 0`, the code reports smoothed value `0` on the fill tick
(integer ring average `43 / 15 = 2`, accumulator `0.7`), while the
claim formula with the exact ring mean `43/15` yields accumulator
`301/300` and floor `1`; the claim as stated fails on the code. -/
theorem smoothed_not_exact_mean :
    (chanOutputs emaProbeInput).getD 14 0 ≠ ⌊specEmaReal emaProbeInput 14⌋ := by
  have h1 : (chanOutputs emaProbeInput).getD 14 0 = 0 := by
    with_unfolding_all rfl
  have h2 : ⌊specEmaReal emaProbeInput 14⌋ = 1 := by
    with_unfolding_all rfl
  rw [h1, h2]
  decide

/-- C4 (amended): for every channel, every sample processed before the
moving-average ring (`ARRAY_SIZE = 15` slots) has filled once reports
smoothed value `0`; from the sample on which the ring first fills
onwards, the reported value is `⌊ema⌋` where `ema` is updated on every
call as `alpha * avg + (1 - alpha) * ema_prev` with `alpha = 0.35`,
`ema` starting at `0`, and `avg` the integer (floored) ring average —
the sum of the last fifteen filtered values divided by `15` with
integer division. -/
theorem smoothed_spec (xs : List Nat) (i : Nat) (h : i < xs.length) :
    (chanOutputs xs).getD i 0 =
      if i + 1 < ARRAY_SIZE then (0 : Int) else ⌊specEma xs i⌋ := by
  rw [(chanRun_spec xs).2, getD_map_range _ _ _ h]

theorem smoothed_spec_witness :
    (chanOutputs (List.replicate 15 3)).getD 14 0 =
      if 14 + 1 < ARRAY_SIZE then (0 : Int) else ⌊specEma (List.replicate 15 3) 14⌋ :=
  smoothed_spec (List.replicate 15 3) 14 (by rw [List.length_replicate]; omega)

/-! ### C5: the frame buffer is bounded and full-buffer samples are
discarded -/

theorem collectSample_room {σ : Type} (flt : σ → Int → Int × σ)
    (s : ProdState σ) (r1 r2 : Nat) (h : s.buffer.length < SAMPLES_PER_FRAME) :
    (collectSample flt s r1 r2).buffer = s.buffer ++ [condSample flt s r1 r2] ∧
    (collectSample flt s r1 r2).discarded = s.discarded ∧
    (collectSample flt s r1 r2).emitted = s.emitted ∧
    (collectSample flt s r1 r2).now = s.now := by
  simp [collectSample, h]

theorem collectSample_full_buffer {σ : Type} (flt : σ → Int → Int × σ)
    (s : ProdState σ) (r1 r2 : Nat) (h : ¬ (s.buffer.length < SAMPLES_PER_FRAME)) :
    (collectSample flt s r1 r2).buffer = s.buffer ∧
    (collectSample flt s r1 r2).discarded = s.discarded ++ [condSample flt s r1 r2] ∧
    (collectSample flt s r1 r2).emitted = s.emitted ∧
    (collectSample flt s r1 r2).now = s.now := by
  simp [collectSample, h]

theorem sendPhase_cases {σ : Type} (s : ProdState σ) (inp : TickInput) :
    sendPhase s inp = s ∨
    (SAMPLES_PER_FRAME ≤ s.buffer.length ∧
      sendPhase s inp =
        { s with emitted := s.emitted ++ [{ frameSequence := s.frameSequence
                                            samples := s.buffer }]
                 frameSequence := s.frameSequence + 1
                 buffer := [] }) ∨
    sendPhase s inp = { s with wifiConnected := inp.reconnectOk, buffer := [] } := by
  unfold sendPhase
  split
  · rename_i hcond
    split
    · right
      left
      exact ⟨hcond.2.2, rfl⟩
    · right
      right
      rfl
  · left
    rfl

theorem prodInv_send_clock {σ : Type} (m : ProdState σ) (inp : TickInput)
    (hb : m.buffer.length ≤ SAMPLES_PER_FRAME)
    (he : ∀ f ∈ m.emitted, f.samples.length ≤ SAMPLES_PER_FRAME)
    (hbt : ∀ x ∈ m.buffer, x.t ≤ m.now)
    (het : ∀ x ∈ emittedSamples m, x.t ≤ m.now)
    (hdt : ∀ x ∈ m.discarded, x.t ≤ m.now)
    (hdis : ∀ x ∈ m.discarded, x ∉ emittedSamples m ∧ x ∉ m.buffer) :
    ProdInv { sendPhase m inp with now := (sendPhase m inp).now + 1 } := by
  rcases sendPhase_cases m inp with hs | ⟨hful, hs⟩ | hs <;> rw [hs]
  · refine ⟨hb, he, ?_, ?_, ?_, ?_⟩
    · intro x hx
      show x.t < m.now + 1
      have := hbt x hx
      omega
    · intro x hx
      show x.t < m.now + 1
      have := het x hx
      omega
    · intro x hx
      show x.t < m.now + 1
      have := hdt x hx
      omega
    · exact hdis
  · refine ⟨?_, ?_, ?_, ?_, ?_, ?_⟩
    · simp [SAMPLES_PER_FRAME]
    · intro f hf
      simp only [List.mem_append, List.mem_singleton] at hf
      rcases hf with hf | hf
      · exact he f hf
      · rw [hf]
        exact hb
    · intro x hx
      simp at hx
    · intro x hx
      simp only [emittedSamples, List.map_append, List.flatten_append, List.map_cons,
        List.map_nil, List.flatten_cons, List.flatten_nil, List.append_nil,
        List.mem_append] at hx
      show x.t < m.now + 1
      rcases hx with hx | hx
      · have := het x hx
        omega
      · have := hbt x hx
        omega
    · intro x hx
      show x.t < m.now + 1
      have := hdt x hx
      omega
    · intro x hx
      obtain ⟨hne, hnb⟩ := hdis x hx
      constructor
      · simp only [emittedSamples, List.map_append, List.flatten_append, List.map_cons,
          List.map_nil, List.flatten_cons, List.flatten_nil, List.append_nil,
          List.mem_append]
        rintro (hmem | hmem)
        · exact hne (by simpa [emittedSamples] using hmem)
        · exact hnb hmem
      · simp
  · refine ⟨?_, he, ?_, ?_, ?_, ?_⟩
    · simp [SAMPLES_PER_FRAME]
    · intro x hx
      simp at hx
    · intro x hx
      show x.t < m.now + 1
      have := het x hx
      omega
    · intro x hx
      show x.t < m.now + 1
      have := hdt x hx
      omega
    · intro x hx
      obtain ⟨hne, _⟩ := hdis x hx
      refine ⟨hne, by simp⟩

theorem prodInv_tick {σ : Type} (flt : σ → Int → Int × σ)
    (s : ProdState σ) (inp : TickInput) (h : ProdInv s) : ProdInv (loopTick flt s inp) := by
  obtain ⟨h1, h2, h3, h4, h5, h6⟩ := h
  by_cases hc : s.baselineCalibrated = false
  · by_cases hcnt : s.calibrationCount < CALIBRATION_SAMPLES
    · simp only [loopTick]
      rw [if_pos hc, if_pos hcnt]
      apply prodInv_send_clock
      · exact h1
      · exact h2
      · exact fun x hx => le_of_lt (h3 x hx)
      · exact fun x hx => le_of_lt (h4 x hx)
      · exact fun x hx => le_of_lt (h5 x hx)
      · exact h6
    · simp only [loopTick]
      rw [if_pos hc, if_neg hcnt]
      apply prodInv_send_clock
      · exact h1
      · exact h2
      · exact fun x hx => le_of_lt (h3 x hx)
      · exact fun x hx => le_of_lt (h4 x hx)
      · exact fun x hx => le_of_lt (h5 x hx)
      · exact h6
  · simp only [loopTick]
    rw [if_neg hc]
    have hsmpt : (condSample flt s inp.raw1 inp.raw2).t = s.now := rfl
    by_cases hroom : s.buffer.length < SAMPLES_PER_FRAME
    · obtain ⟨cb, cd, ce, cn⟩ := collectSample_room flt s inp.raw1 inp.raw2 hroom
      have hemC : emittedSamples (collectSample flt s inp.raw1 inp.raw2) =
          emittedSamples s := by
        unfold emittedSamples
        rw [ce]
      apply prodInv_send_clock
      · rw [cb, List.length_append, List.length_singleton]
        omega
      · intro f hf
        rw [ce] at hf
        exact h2 f hf
      · intro x hx
        rw [cb, List.mem_append, List.mem_singleton] at hx
        rw [cn]
        rcases hx with hx | hx
        · exact le_of_lt (h3 x hx)
        · rw [hx, hsmpt]
      · intro x hx
        rw [hemC] at hx
        rw [cn]
        exact le_of_lt (h4 x hx)
      · intro x hx
        rw [cd] at hx
        rw [cn]
        exact le_of_lt (h5 x hx)
      · intro x hx
        rw [cd] at hx
        obtain ⟨hne, hnb⟩ := h6 x hx
        refine ⟨by rw [hemC]; exact hne, ?_⟩
        rw [cb, List.mem_append, List.mem_singleton]
        rintro (hmem | hmem)
        · exact hnb hmem
        · have hlt := h5 x hx
          rw [hmem, hsmpt] at hlt
          omega
    · obtain ⟨cb, cd, ce, cn⟩ := collectSample_full_buffer flt s inp.raw1 inp.raw2 hroom
      have hemC : emittedSamples (collectSample flt s inp.raw1 inp.raw2) =
          emittedSamples s := by
        unfold emittedSamples
        rw [ce]
      apply prodInv_send_clock
      · rw [cb]
        exact h1
      · intro f hf
        rw [ce] at hf
        exact h2 f hf
      · intro x hx
        rw [cb] at hx
        rw [cn]
        exact le_of_lt (h3 x hx)
      · intro x hx
        rw [hemC] at hx
        rw [cn]
        exact le_of_lt (h4 x hx)
      · intro x hx
        rw [cd, List.mem_append, List.mem_singleton] at hx
        rw [cn]
        rcases hx with hx | hx
        · exact le_of_lt (h5 x hx)
        · rw [hx, hsmpt]
      · intro x hx
        rw [cd, List.mem_append, List.mem_singleton] at hx
        rcases hx with hx | hx
        · obtain ⟨hne, hnb⟩ := h6 x hx
          exact ⟨by rw [hemC]; exact hne, by rw [cb]; exact hnb⟩
        · constructor
          · rw [hemC, hx]
            intro hmem
            have := h4 _ hmem
            rw [hsmpt] at this
            omega
          · rw [cb, hx]
            intro hmem
            have := h3 _ hmem
            rw [hsmpt] at this
            omega

theorem prodInv_run {σ : Type} (flt : σ → Int → Int × σ) (f0 : σ) (w0 : Bool)
    (inputs : List TickInput) : ProdInv (runProd flt f0 w0 inputs) := by
  have main : ∀ (l : List TickInput) (s : ProdState σ),
      ProdInv s → ProdInv (l.foldl (loopTick flt) s) := by
    intro l
    induction l with
    | nil => intro s h; exact h
    | cons i rest ih =>
        intro s h
        exact ih _ (prodInv_tick flt s i h)
  apply main
  refine ⟨?_, ?_, ?_, ?_, ?_, ?_⟩ <;> simp [prodInit, emittedSamples]

/-- C5: after any run of the producer loop the frame buffer never
holds more than `SAMPLES_PER_FRAME` samples; every emitted frame
serializes at most `SAMPLES_PER_FRAME` samples; a sample collected
while the buffer index has reached `SAMPLES_PER_FRAME` is discarded —
it is not queued (`collectSample` leaves a full buffer unchanged) and
it is present in no emitted frame and not in the buffer. -/
theorem frameBuffer_bounded {σ : Type} (flt : σ → Int → Int × σ) (f0 : σ) (w0 : Bool)
    (inputs : List TickInput) :
    (runProd flt f0 w0 inputs).buffer.length ≤ SAMPLES_PER_FRAME ∧
    (∀ f ∈ (runProd flt f0 w0 inputs).emitted, f.samples.length ≤ SAMPLES_PER_FRAME) ∧
    (∀ x ∈ (runProd flt f0 w0 inputs).discarded,
        x ∉ emittedSamples (runProd flt f0 w0 inputs) ∧
        x ∉ (runProd flt f0 w0 inputs).buffer) ∧
    (∀ (s : ProdState σ) (r1 r2 : Nat), SAMPLES_PER_FRAME ≤ s.buffer.length →
        (collectSample flt s r1 r2).buffer = s.buffer) := by
  obtain ⟨h1, h2, _, _, _, h6⟩ := prodInv_run flt f0 w0 inputs
  refine ⟨h1, h2, h6, ?_⟩
  intro s r1 r2 hfull
  exact (collectSample_full_buffer flt s r1 r2 (by omega)).1

theorem frameBuffer_bounded_witness :
    c5ProbeFrame.samples.length ≤ SAMPLES_PER_FRAME ∧
    (c5ProbeSample ∉ emittedSamples (runProd idFilter () true c5ProbeInputs) ∧
      c5ProbeSample ∉ (runProd idFilter () true c5ProbeInputs).buffer) ∧
    (collectSample idFilter (runProd idFilter () true c5ProbeInputs) 0 0).buffer =
      (runProd idFilter () true c5ProbeInputs).buffer :=
  ⟨(frameBuffer_bounded idFilter () true c5ProbeInputs).2.1 c5ProbeFrame
      (of_decide_eq_true (by with_unfolding_all rfl)),
    (frameBuffer_bounded idFilter () true c5ProbeInputs).2.2.1 c5ProbeSample
      (of_decide_eq_true (by with_unfolding_all rfl)),
    (frameBuffer_bounded idFilter () true c5ProbeInputs).2.2.2 _ 0 0
      (of_decide_eq_true (by with_unfolding_all rfl))⟩

end EMG
